import Mathlib

/-!
Verification development for the payflow-demo fund-sweeping example.

The development shallowly embeds the parts of the TypeScript sources that the
specification talks about:

* the policy-condition codec (`formatCondition` in
  `src/commands/viewPolicies.ts`, together with the documented condition
  builder of `createPolicy.ts`),
* the sweep orchestrator `sweepUSDC` (modelled from the spec and from the
  snippets quoted in `docs/05-fund-sweeping.md`),
* the one-shot batch sweep `runSweepFunds` and the scheduled sweep loop of
  `src/commands/viewPolicies.ts`,
* the merchant directory reader `listMerchants` in `src/utils/merchants.ts`.

Strings are modelled as `List Char`; machine balances are `Nat` (wei for the
gas balance, raw token units for USDC).
-/

namespace Payflow

/-! ## String primitives

JavaScript string operations used by the sources, modelled over `List Char`.
-/

/-- The single-quote character (code 39), written via `Char.ofNat`. -/
def quoteChar : Char := Char.ofNat 39

/-- Space/tab/newline test used by the model of `String.prototype.trim`. -/
def isSpaceChar (c : Char) : Bool := c = ' ' || c = '\t' || c = '\n' || c = '\r'

/-- Models `s.trimStart()`: drop leading whitespace. -/
def trimLeftChars (l : List Char) : List Char := l.dropWhile isSpaceChar

/-- Models `s.trimEnd()`: drop trailing whitespace. -/
def trimRightChars (l : List Char) : List Char := (trimLeftChars l.reverse).reverse

/-- Models `s.trim()`: drop whitespace at both ends. -/
def trimChars (l : List Char) : List Char := trimLeftChars (trimRightChars l)

/-- Models `s.includes(pat)`: does `pat` occur as a contiguous substring? -/
def listContains (pat : List Char) : List Char → Bool
  | [] => pat.isEmpty
  | c :: cs => pat.isPrefixOf (c :: cs) || listContains pat cs

/-- Models `s.includes(pat)` on `String`s. -/
def strContains (s pat : String) : Bool := listContains pat.data s.data

/-- Splits `l` at the first occurrence of `pat`, returning the part before the
occurrence and the part after it (the occurrence removed); `none` when `pat`
does not occur.  Helper for the model of `String.prototype.split`. -/
def splitFirst (pat : List Char) : List Char → Option (List Char × List Char)
  | [] => none
  | c :: cs =>
    if pat.isPrefixOf (c :: cs) then some ([], (c :: cs).drop pat.length)
    else
      match splitFirst pat cs with
      | some (b, a) => some (c :: b, a)
      | none => none

/-- The conjunction separator of the policy-condition language: `" && "`. -/
def sepChars : List Char := [' ', '&', '&', ' ']

/-- Models `condition.split(" && ")` (src viewPolicies.ts line 15). -/
def splitCond (l : List Char) : List (List Char) :=
  match h : splitFirst sepChars l with
  | none => [l]
  | some (b, a) => b :: splitCond a
termination_by l.length
decreasing_by
  have key : ∀ (m : List Char) (b a : List Char),
      splitFirst sepChars m = some (b, a) → a.length < m.length := by
    intro m
    induction m with
    | nil => intro b a hba; simp [splitFirst] at hba
    | cons c cs ih =>
      intro b a hba
      simp only [splitFirst] at hba
      split at hba
      · obtain ⟨hb, ha⟩ := Prod.mk.injEq .. ▸ (Option.some.injEq .. ▸ hba)
        subst ha
        simp only [List.length_drop, List.length_cons, sepChars]
        omega
      · rcases hsf : splitFirst sepChars cs with _ | ⟨b', a'⟩ <;> rw [hsf] at hba
        · exact absurd hba (by simp)
        · obtain ⟨hb, ha⟩ := Prod.mk.injEq .. ▸ (Option.some.injEq .. ▸ hba)
          subst ha
          have := ih b' a' hsf
          simp only [List.length_cons]
          omega
  exact key l b a h

/-- Models `l.slice(-n)` for JavaScript strings: the last `n` characters (the
whole string when it is shorter than `n`). -/
def sliceLast (n : Nat) (l : List Char) : List Char := l.drop (l.length - n)

/-- Models the capture of a regular expression of the form `lit([^']+)'`
anchored at the start of `l`: `l` must start with the literal `lit`, followed
by at least one non-quote character and a closing quote; returns the captured
characters. -/
def captureAt (lit : List Char) (l : List Char) : Option (List Char) :=
  if lit.isPrefixOf l then
    if ((l.drop lit.length).takeWhile (fun c => c != quoteChar)).isEmpty ||
        ((l.drop lit.length).takeWhile (fun c => c != quoteChar)).length =
          (l.drop lit.length).length
    then none
    else some ((l.drop lit.length).takeWhile (fun c => c != quoteChar))
  else none

/-- Models `part.match(/lit([^']+)'/)`: search for the first position of `l`
at which the pattern `lit([^']+)'` matches, returning the capture group. -/
def regexCapture (lit : List Char) : List Char → Option (List Char)
  | [] => none
  | c :: cs =>
    match captureAt lit (c :: cs) with
    | some r => some r
    | none => regexCapture lit cs

/-! ## Policy-condition codec

`formatCondition` (src viewPolicies.ts lines 11-62) classifies each
`" && "`-separated clause of a policy condition and extracts the embedded
address, function selector, or padded destination.  `decodeClause` captures
exactly that per-clause classification and extraction; unrecognized clauses
(either no known marker, or a marker whose regular expression fails to match)
are kept verbatim, mirroring the `formatted.push(part)` fallbacks at lines
29, 40, 53 and 57.
-/

/-- The marker `"eth.tx.to =="` tested at viewPolicies.ts line 20. -/
def patTarget : List Char :=
  ['e', 't', 'h', '.', 't', 'x', '.', 't', 'o', ' ', '=', '=']

/-- The marker `"eth.tx.data[2..10] =="` tested at viewPolicies.ts line 31. -/
def patSelector : List Char :=
  ['e', 't', 'h', '.', 't', 'x', '.', 'd', 'a', 't', 'a', '[', '2', '.', '.',
   '1', '0', ']', ' ', '=', '=']

/-- The marker `"eth.tx.data[10..74] =="` tested at viewPolicies.ts line 42. -/
def patDestination : List Char :=
  ['e', 't', 'h', '.', 't', 'x', '.', 'd', 'a', 't', 'a', '[', '1', '0', '.',
   '.', '7', '4', ']', ' ', '=', '=']

/-- The literal part of the regex at viewPolicies.ts line 22: the target
marker followed by a space and an opening quote. -/
def litTarget : List Char := patTarget ++ [' ', quoteChar]

/-- The literal part of the regex at viewPolicies.ts line 33. -/
def litSelector : List Char := patSelector ++ [' ', quoteChar]

/-- The literal part of the regex at viewPolicies.ts line 44. -/
def litDestination : List Char := patDestination ++ [' ', quoteChar]

/-- The fixed ERC-20 `transfer(address,uint256)` selector `a9059cbb`. -/
def selectorChars : List Char := ['a', '9', '0', '5', '9', 'c', 'b', 'b']

/-- Decoded form of one policy-condition clause, as extracted by
`formatCondition`: the token-contract target address (line 24), the function
selector (line 35), the padded destination together with the unpadded address
recovered at line 48, or the verbatim clause when nothing matches. -/
inductive ClauseDecode where
  | target : List Char → ClauseDecode
  | selector : List Char → ClauseDecode
  | destination : List Char → List Char → ClauseDecode
  | unrecognized : List Char → ClauseDecode
deriving DecidableEq

/-- Per-clause decoding of `formatCondition` (viewPolicies.ts lines 18-59):
test the three markers in source order; on a marker hit run the corresponding
regex and extract the capture; for the destination clause also strip the
left padding via `"0x" + paddedAddress.slice(-40)` (line 48); fall back to the
verbatim clause otherwise. -/
def decodeClause (part : List Char) : ClauseDecode :=
  if listContains patTarget part then
    match regexCapture litTarget part with
    | some a => ClauseDecode.target a
    | none => ClauseDecode.unrecognized part
  else if listContains patSelector part then
    match regexCapture litSelector part with
    | some s => ClauseDecode.selector s
    | none => ClauseDecode.unrecognized part
  else if listContains patDestination part then
    match regexCapture litDestination part with
    | some p => ClauseDecode.destination p ('0' :: 'x' :: sliceLast 40 p)
    | none => ClauseDecode.unrecognized part
  else ClauseDecode.unrecognized part

/-- The decode side of the codec, following `formatCondition`
(viewPolicies.ts lines 11-18): an empty condition decodes to nothing
(line 12); otherwise split on `" && "`, trim each part (line 15) and decode
each clause in order. -/
def decompile (cond : List Char) : List ClauseDecode :=
  if cond.isEmpty then []
  else (splitCond cond).map (fun p => decodeClause (trimChars p))

/-- True when a clause carries none of the three recognized markers. -/
def noMarkers (p : List Char) : Bool :=
  !(listContains patTarget p) && !(listContains patSelector p) &&
    !(listContains patDestination p)

/-! ## Compile side of the codec

`createPolicy.ts` is not part of the snapshot; the condition it builds is
quoted verbatim in the in-repo documentation (docs/04-policies.md lines
49-53, present as src/unnamed/part_003).  Addresses are modelled at the byte
level as lists of 40 hex nibbles (20 bytes); `compile` renders them in the
canonical lowercase hex form, matching the `.toLowerCase()` in the quoted
condition builder.
-/

/-- Lowercase hex digit for one nibble. -/
def hexChar (n : Fin 16) : Char :=
  if (n : Nat) < 10 then Char.ofNat (48 + (n : Nat)) else Char.ofNat (87 + (n : Nat))

/-- Renders an address value as its lowercase `0x`-prefixed hex string. -/
def addrChars (a : List (Fin 16)) : List Char := '0' :: 'x' :: a.map hexChar

/-- Renders the 32-byte-slot padding of a destination address: 24 zero hex
digits (12 bytes) followed by the 40 hex digits of the address, no `0x`
prefix — the calldata form checked by `eth.tx.data[10..74]`. -/
def paddedChars (d : List (Fin 16)) : List Char :=
  List.replicate 24 '0' ++ d.map hexChar

/-- First clause of the documented condition: the transaction target must be
the token contract. -/
def clauseTarget (t : List (Fin 16)) : List Char :=
  litTarget ++ addrChars t ++ [quoteChar]

/-- Second clause: the calldata function selector must be the ERC-20
`transfer` selector. -/
def clauseSelector : List Char := litSelector ++ selectorChars ++ [quoteChar]

/-- Third clause: the calldata argument slot must be the left-padded
destination address. -/
def clauseDestination (d : List (Fin 16)) : List Char :=
  litDestination ++ paddedChars d ++ [quoteChar]

/-- Modelled from the spec: the `compile` side of the PredicateCodec
(`createPolicy.ts`, absent from the snapshot).  Per the condition quoted in
docs/04-policies.md lines 49-53 it emits the three clauses
target, selector, padded-destination in that fixed order, joined by
`" && "`. -/
def compile (t d : List (Fin 16)) : List Char :=
  clauseTarget t ++ sepChars ++ clauseSelector ++ sepChars ++ clauseDestination d

/-- Parses one lowercase hex digit back to a nibble (spec-side inverse of
`hexChar`, used to state that the round trip recovers the address value). -/
def parseHexChar (c : Char) : Option (Fin 16) :=
  if '0' ≤ c && c ≤ '9' then some ⟨(c.toNat - 48) % 16, Nat.mod_lt _ (by omega)⟩
  else if 'a' ≤ c && c ≤ 'f' then
    some ⟨(c.toNat - 87) % 16, Nat.mod_lt _ (by omega)⟩
  else none

/-- Parses a list of hex digits back to nibbles. -/
def parseHexList : List Char → Option (List (Fin 16))
  | [] => some []
  | c :: cs =>
    match parseHexChar c, parseHexList cs with
    | some n, some ns => some (n :: ns)
    | _, _ => none

/-- Parses a `0x`-prefixed lowercase hex string back to an address value
(spec-side decoder stating the round-trip law of §4.1). -/
def parseAddr : List Char → Option (List (Fin 16))
  | '0' :: 'x' :: rest => parseHexList rest
  | _ => none

/-! ## Sweep orchestrator

`sweepUSDC.ts` is not part of the snapshot; the orchestrator below is
modelled from spec §4.2 and from the code snippets quoted in the in-repo
documentation `docs/05-fund-sweeping.md` (gas check against a fixed
0.001-ETH reserve, zero-balance check, threshold check, full-balance
transfer, broadcast, one-confirmation wait).  The collaborators (chain
client, delegated signer) are part of the environment record.
-/

/-- Result of the delegated-signer / broadcast step (spec §6): the backend
may reject on policy grounds, be unreachable, or sign-and-broadcast,
returning a transaction hash. -/
inductive SignResult where
  | rejected : SignResult
  | unavailable : SignResult
  | broadcast : String → SignResult
deriving DecidableEq

/-- Result of the one-confirmation wait (spec §4.2 step 5): confirmed with
success status, confirmed with failure status, or not observable. -/
inductive ConfirmResult where
  | confirmedOk : ConfirmResult
  | confirmedFailed : ConfirmResult
  | unknown : ConfirmResult
deriving DecidableEq

/-- The classified sweep outcomes of spec §7. -/
inductive Outcome where
  | success : Outcome
  | insufficientGas : Outcome
  | noBalance : Outcome
  | belowThreshold : Outcome
  | signingRejected : Outcome
  | signingUnavailable : Outcome
  | transactionFailed : Outcome
  | confirmationUnknown : Outcome
deriving DecidableEq

/-- State of one source account and of the external collaborators as seen by
one orchestrator invocation: the native-gas balance in wei, the token balance
in raw units, and the responses of the signer and of the confirmation wait. -/
structure SweepEnv where
  ethBalanceWei : Nat
  usdcBalanceRaw : Nat
  signing : SignResult
  confirmation : ConfirmResult
deriving DecidableEq

/-- Classified result of one sweep: the outcome, the amount attempted (only
populated on paths that reach the transfer step) and the transaction hash
(populated as soon as the broadcast returns, even if confirmation then
fails — spec §4.2 step 4). -/
structure SweepResult where
  outcome : Outcome
  amount : Option Nat
  txHash : Option String
deriving DecidableEq

/-- The fixed gas reserve `ethers.parseEther("0.001")` in wei, quoted in
docs/05-fund-sweeping.md line 85. -/
def minGasWei : Nat := 1000000000000000

/-- Modelled from the spec: `sweepUSDC` (sweepUSDC.ts, absent from the
snapshot).  Follows spec §4.2 and the checks quoted in
docs/05-fund-sweeping.md lines 155-175: gas below the fixed reserve yields
`InsufficientGas`; a zero token balance yields `NoBalance`; a nonzero
balance below the threshold yields `BelowThreshold`; otherwise the entire
balance is transferred via the delegated signer, whose rejection or
unavailability yields the corresponding failure; after a broadcast the
confirmation wait classifies the final outcome. -/
def sweepUSDC (env : SweepEnv) (thresholdRaw : Nat) : SweepResult :=
  if env.ethBalanceWei < minGasWei then ⟨Outcome.insufficientGas, none, none⟩
  else if env.usdcBalanceRaw = 0 then ⟨Outcome.noBalance, none, none⟩
  else if env.usdcBalanceRaw < thresholdRaw then ⟨Outcome.belowThreshold, none, none⟩
  else
    match env.signing with
    | SignResult.rejected => ⟨Outcome.signingRejected, none, none⟩
    | SignResult.unavailable => ⟨Outcome.signingUnavailable, none, none⟩
    | SignResult.broadcast tx =>
      match env.confirmation with
      | ConfirmResult.confirmedOk =>
        ⟨Outcome.success, some env.usdcBalanceRaw, some tx⟩
      | ConfirmResult.confirmedFailed =>
        ⟨Outcome.transactionFailed, some env.usdcBalanceRaw, some tx⟩
      | ConfirmResult.unknown =>
        ⟨Outcome.confirmationUnknown, some env.usdcBalanceRaw, some tx⟩

/-- The three expected skip outcomes of spec §7. -/
def isSkip : Outcome → Bool
  | Outcome.insufficientGas => true
  | Outcome.noBalance => true
  | Outcome.belowThreshold => true
  | _ => false

/-- Error message attached to each non-success outcome.  The first four
strings are quoted verbatim in docs/05-fund-sweeping.md lines 155-175; the
last three are modelled from the spec (sweepUSDC.ts is absent and the
documentation does not quote them). -/
def outcomeMessage : Outcome → Option String
  | Outcome.success => none
  | Outcome.insufficientGas => some "Insufficient ETH for gas fees"
  | Outcome.noBalance => some "No USDC balance to sweep"
  | Outcome.belowThreshold => some "Balance below threshold"
  | Outcome.transactionFailed => some "Transaction failed"
  | Outcome.signingRejected => some "Policy rejected the transaction"
  | Outcome.signingUnavailable => some "Signing service unavailable"
  | Outcome.confirmationUnknown => some "Confirmation not observed"

/-! ## Scheduled sweep loop: timing and shutdown

`runScheduledSweep` (src viewPolicies.ts lines 329-576) runs one sweep pass
immediately and then installs `setInterval(async () => { await runSweep(); },
intervalMs)` (lines 552-554).  A JavaScript interval timer fires its callback
every `intervalMs` regardless of whether the promise returned by a previous
callback has settled, and the source keeps no in-flight flag, so iteration
`k` simply starts at time `k * intervalMs`.
-/

/-- Start time of iteration `k` of the scheduled sweep loop: the first pass
runs immediately (line 549) and the interval timer fires every `intervalMs`
thereafter (lines 552-554), unconditionally. -/
def iterationStart (intervalMs k : Nat) : Nat := k * intervalMs

/-- Whether iteration `k` (taking `dur k` milliseconds) is still executing at
time `t`. -/
def inFlightAt (intervalMs : Nat) (dur : Nat → Nat) (k t : Nat) : Bool :=
  decide (iterationStart intervalMs k ≤ t ∧
    t < iterationStart intervalMs k + dur k)

/-- State of the scheduled sweep job as seen by the signal handler: whether
the interval timer is armed, whether a sweep iteration is currently
executing (e.g. awaiting a confirmation), whether the cumulative summary has
been printed, and whether the Node process is still alive. -/
structure SchedulerState where
  timerActive : Bool
  inFlight : Bool
  summaryEmitted : Bool
  processAlive : Bool
deriving DecidableEq

/-- Models the SIGINT/SIGTERM handler `shutdown` (src viewPolicies.ts lines
557-572): it clears the interval timer, prints the cumulative summary, and
calls `process.exit(0)` — synchronously, without awaiting any in-flight
iteration, so the `inFlight` component is left as it was at the moment the
signal arrived. -/
def shutdown (s : SchedulerState) : SchedulerState :=
  ⟨false, s.inFlight, true, false⟩

/-- Models the per-wallet logging filter of `runScheduledSweep`
(src viewPolicies.ts line 512): a non-success sweep result is logged with a
warning exactly when its error string is present, non-empty, and contains
neither `"below threshold"` nor `"No USDC"`. -/
def logsWarning (err : Option String) : Bool :=
  match err with
  | none => false
  | some e =>
    if e = "" then false
    else !(strContains e "below threshold") && !(strContains e "No USDC")

/-! ## One-shot batch sweep

`runSweepFunds` (src viewPolicies.ts lines 585-786) iterates all merchants
and all of their wallets sequentially, pushing exactly one result record per
wallet; the call to `sweepUSDC` sits in a `try`/`catch` whose handler pushes
a failure record and continues (lines 722-731).  The sweep call is a
parameter of type `Except String SweepCallResult`, an exception thrown by the
call being the `Except.error` case.
-/

/-- A merchant wallet as produced by `listMerchants`. -/
structure Wallet where
  walletId : String
  walletName : String
  address : String
deriving DecidableEq

/-- A merchant (sub-organization) as produced by `listMerchants`. -/
structure Merchant where
  subOrganizationId : String
  subOrganizationName : String
  wallets : List Wallet
deriving DecidableEq

/-- The result shape returned by `sweepUSDC` to its TypeScript callers. -/
structure SweepCallResult where
  success : Bool
  amount : Option String
  transactionHash : Option String
  error : Option String
deriving DecidableEq

/-- One entry of the `results` array of `runSweepFunds`
(src viewPolicies.ts lines 642-650). -/
structure ResultRecord where
  merchantName : String
  walletAddress : String
  walletName : String
  success : Bool
  amount : Option String
  transactionHash : Option String
  error : Option String
deriving DecidableEq

/-- Processing of one wallet by `runSweepFunds` (src viewPolicies.ts lines
669-731): a wallet without an address is recorded as failed with
`"Address not available"`; otherwise the sweep call is made, a thrown
exception is caught and recorded, and a returned result is recorded as
success or as a skip/failure. -/
def processWallet (call : Merchant → Wallet → Except String SweepCallResult)
    (m : Merchant) (w : Wallet) : ResultRecord :=
  if w.address = "N/A" then
    ⟨m.subOrganizationName, w.address, w.walletName, false, none, none,
      some "Address not available"⟩
  else
    match call m w with
    | Except.error msg =>
      ⟨m.subOrganizationName, w.address, w.walletName, false, none, none,
        some msg⟩
    | Except.ok r =>
      if r.success then
        ⟨m.subOrganizationName, w.address, w.walletName, true, r.amount,
          r.transactionHash, none⟩
      else
        ⟨m.subOrganizationName, w.address, w.walletName, false, none, none,
          r.error⟩

/-- The batch loop of `runSweepFunds` (src viewPolicies.ts lines 659-734):
merchants are visited in order, merchants without wallets are skipped
(`continue`, line 661), and every wallet of every other merchant contributes
exactly one record, in order. -/
def runSweepFunds (call : Merchant → Wallet → Except String SweepCallResult)
    (merchants : List Merchant) : List ResultRecord :=
  merchants.foldl
    (fun acc m =>
      if m.wallets.length = 0 then acc
      else acc ++ m.wallets.map (processWallet call m))
    []

/-! ## Merchant directory

`listMerchants` (src utils/merchants.ts lines 26-146).  The Turnkey API calls
are the components of a `MerchantsEnv`; a call that throws is modelled by
`Except.error`.
-/

/-- A raw wallet record as returned by `getWallets`: the name may be
absent. -/
structure WalletRec where
  walletId : String
  walletName : Option String
deriving DecidableEq

/-- A raw policy record as returned by `getPolicies`: every field may be
absent. -/
structure RawPolicy where
  policyId : Option String
  policyName : Option String
  effect : Option String
  condition : Option String
  consensus : Option String
  notes : Option String
deriving DecidableEq

/-- The `PolicyInfo` interface of src utils/merchants.ts lines 3-10. -/
structure PolicyInfo where
  policyId : String
  policyName : String
  effect : String
  condition : Option String
  consensus : Option String
  notes : Option String
deriving DecidableEq

/-- One wallet entry of a `MerchantInfo` (src utils/merchants.ts
lines 15-19). -/
structure MerchantWallet where
  walletId : String
  walletName : String
  address : String
deriving DecidableEq

/-- The `MerchantInfo` interface of src utils/merchants.ts lines 12-21. -/
structure MerchantInfo where
  subOrganizationId : String
  subOrganizationName : String
  wallets : List MerchantWallet
  policies : List PolicyInfo
deriving DecidableEq

/-- The Turnkey API surface consumed by `listMerchants`, one `Except`-valued
component per call; `getWalletAccounts` returns the account addresses of one
wallet, `getOrganizationName` the (possibly missing) organization name. -/
structure MerchantsEnv where
  getSubOrgIds : Except String (List String)
  getWallets : String → Except String (List WalletRec)
  getOrganizationName : String → Except String (Option String)
  getWalletAccounts : String → String → Except String (List String)
  getPolicies : String → Except String (List RawPolicy)

/-- Models the JavaScript `x || d` default for optional strings: the default
is used when the value is absent or empty (both are falsy). -/
def jsOr (o : Option String) (d : String) : String :=
  match o with
  | some s => if s = "" then d else s
  | none => d

/-- Models `s.replace(pat, "")`: remove the first occurrence of `pat`. -/
def replaceFirstStr (pat s : String) : String :=
  match splitFirst pat.data s.data with
  | none => s
  | some (b, a) => String.mk (b ++ a)

/-- Name resolution of `listMerchants` (src utils/merchants.ts lines 53-79):
use the organization name when `getOrganization` succeeded and returned one;
otherwise look for the wallet whose name ends in `" Wallet"` (falling back to
the first wallet), strip that suffix, and fall back to the truncated
sub-organization id when this yields nothing. -/
def deriveName (subOrgId : String) (wallets : List WalletRec)
    (fromOrg : Option String) : String :=
  match fromOrg with
  | some n => n
  | none =>
    let fallback := subOrgId.take 8 ++ "..."
    let original :=
      match wallets.find? (fun w =>
          match w.walletName with
          | some nm => nm.endsWith " Wallet"
          | none => false) with
      | some w => some w
      | none => wallets.head?
    match original with
    | some w =>
      match w.walletName with
      | some nm =>
        let r := replaceFirstStr " Wallet" nm
        if r = "" then fallback else r
      | none => fallback
    | none => fallback

/-- Address resolution for one wallet (src utils/merchants.ts lines 82-108):
fetch the wallet accounts and take the first address; on a thrown error, an
empty account list, or an empty address the wallet is kept with address
`"N/A"`. -/
def walletWithAddress (env : MerchantsEnv) (subOrgId : String)
    (w : WalletRec) : MerchantWallet :=
  match env.getWalletAccounts subOrgId w.walletId with
  | Except.ok addrs =>
    match addrs with
    | a :: _ =>
      if a = "" then ⟨w.walletId, jsOr w.walletName "Unnamed Wallet", "N/A"⟩
      else ⟨w.walletId, jsOr w.walletName "Unnamed Wallet", a⟩
    | [] => ⟨w.walletId, jsOr w.walletName "Unnamed Wallet", "N/A"⟩
  | Except.error _ => ⟨w.walletId, jsOr w.walletName "Unnamed Wallet", "N/A"⟩

/-- Field-level defaulting of one policy record (src utils/merchants.ts
lines 117-124). -/
def normalizePolicy (p : RawPolicy) : PolicyInfo :=
  ⟨jsOr p.policyId "", jsOr p.policyName "Unnamed Policy",
    jsOr p.effect "UNKNOWN", p.condition, p.consensus, p.notes⟩

/-- Processing of one sub-organization inside the loop of `listMerchants`
(src utils/merchants.ts lines 41-139): the whole body is wrapped in a
`try`/`catch` that skips the sub-organization (returns `none`) when the
wallet listing throws; the name lookup, the per-wallet account lookups and
the policy listing each have their own inner `catch` and degrade instead of
propagating. -/
def processSubOrg (env : MerchantsEnv) (subOrgId : String) :
    Option MerchantInfo :=
  match env.getWallets subOrgId with
  | Except.error _ => none
  | Except.ok wallets =>
    let fromOrg :=
      match env.getOrganizationName subOrgId with
      | Except.ok (some n) => if n = "" then none else some n
      | Except.ok none => none
      | Except.error _ => none
    let name := deriveName subOrgId wallets fromOrg
    let merchantWallets := wallets.map (walletWithAddress env subOrgId)
    let policies :=
      match env.getPolicies subOrgId with
      | Except.ok ps => ps.map normalizePolicy
      | Except.error _ => []
    some ⟨subOrgId, name, merchantWallets, policies⟩

/-- The top level of `listMerchants` (src utils/merchants.ts lines 26-146):
only the sub-organization id listing is outside every inner `catch`, so its
failure — and nothing else — is rethrown (wrapped in
`"Failed to list merchants: "`). -/
def listMerchants (env : MerchantsEnv) : Except String (List MerchantInfo) :=
  match env.getSubOrgIds with
  | Except.error msg => Except.error ("Failed to list merchants: " ++ msg)
  | Except.ok ids => Except.ok (ids.filterMap (processSubOrg env))

/-! ## Concrete inputs used by the witnesses -/

/-- Witness token address: 40 nibbles, all `b`. -/
def tWitness : List (Fin 16) := List.replicate 40 11

/-- Witness destination address: 40 nibbles, all `2`. -/
def dWitness : List (Fin 16) := List.replicate 40 2

/-- Witness condition for the graceful-degradation claim: one junk clause
followed by a selector clause. -/
def condWitness : List Char :=
  ['j', 'u', 'n', 'k'] ++ sepChars ++ clauseSelector

/-- Witness environment: a sweep that succeeds. -/
def envSuccess : SweepEnv :=
  ⟨minGasWei, 5000000, SignResult.broadcast "0xabc123", ConfirmResult.confirmedOk⟩

/-- Witness environment: the same account immediately after the successful
sweep — the full balance left, gas still at the reserve. -/
def envAfter : SweepEnv :=
  ⟨minGasWei, 0, SignResult.broadcast "0xabc123", ConfirmResult.confirmedOk⟩

/-- Witness environment: a balance below the threshold. -/
def envBelow : SweepEnv :=
  ⟨minGasWei, 20000, SignResult.broadcast "0xdef456", ConfirmResult.confirmedOk⟩

/-- Witness sweep call: every invocation throws, exercising the
`try`/`catch` path of the batch loop. -/
def callWitness : Merchant → Wallet → Except String SweepCallResult :=
  fun _ _ => Except.error "network failure"

/-- Witness merchant set: one merchant with two wallets (one lacking an
address) and one merchant with no wallets. -/
def merchantsWitness : List Merchant :=
  [⟨"org-1", "Acme", [⟨"w1", "Wallet 1", "0xaaa"⟩, ⟨"w2", "Wallet 2", "N/A"⟩]⟩,
    ⟨"org-2", "Beta", []⟩]

/-- Witness directory environment: the id listing succeeds while every
per-sub-organization call fails. -/
def envMerchants : MerchantsEnv :=
  ⟨Except.ok ["org-1"], fun _ => Except.error "denied",
    fun _ => Except.error "denied", fun _ _ => Except.error "denied",
    fun _ => Except.error "denied"⟩

/-- Substring occurrence as a proposition: `pat` occurs contiguously in
`l`. -/
def Occurs (pat l : List Char) : Prop := ∃ a b, l = a ++ pat ++ b

/-- Character class covering everything that can appear after the literal
prefix of a clause emitted by `compile`: lowercase hex digits, the `x` of the
`0x` prefix, and the closing quote. -/
def hexLikeChar (c : Char) : Bool :=
  ('0' ≤ c && c ≤ '9') || ('a' ≤ c && c ≤ 'f') || c = 'x' || c = quoteChar

/-! ## Theorems -/

theorem isPrefixOf_eq_true_iff {p l : List Char} :
    p.isPrefixOf l = true ↔ p <+: l :=
  List.isPrefixOf_iff_prefix

theorem listContains_iff_occurs (pat l : List Char) :
    listContains pat l = true ↔ Occurs pat l := by
  induction l with
  | nil =>
    simp only [listContains, List.isEmpty_iff, Occurs]
    constructor
    · intro h; exact ⟨[], [], by simp [h]⟩
    · rintro ⟨a, b, hab⟩
      rcases List.append_eq_nil.mp hab.symm with ⟨h1, -⟩
      exact (List.append_eq_nil.mp h1).2
  | cons c cs ih =>
    simp only [listContains, Bool.or_eq_true]
    constructor
    · rintro (hpre | htail)
      · rcases isPrefixOf_eq_true_iff.mp hpre with ⟨t, ht⟩
        exact ⟨[], t, by simp [← ht]⟩
      · rcases ih.mp htail with ⟨a, b, hab⟩
        exact ⟨c :: a, b, by simp [hab]⟩
    · rintro ⟨a, b, hab⟩
      cases a with
      | nil =>
        exact Or.inl (isPrefixOf_eq_true_iff.mpr ⟨b, by simpa using hab.symm⟩)
      | cons x a' =>
        refine Or.inr (ih.mpr ?_)
        have hx : c :: cs = x :: (a' ++ pat ++ b) := by simpa using hab
        exact ⟨a', b, (List.cons.injEq .. ▸ hx).2⟩

theorem mem_of_isPrefixOf {p l : List Char} (h : p.isPrefixOf l = true) :
    ∀ x ∈ p, x ∈ l :=
  fun _ hx => (isPrefixOf_eq_true_iff.mp h).sublist.subset hx

theorem isPrefixOf_append_self (p r : List Char) :
    p.isPrefixOf (p ++ r) = true :=
  isPrefixOf_eq_true_iff.mpr ⟨r, rfl⟩

theorem occurs_last_in_left {pat u v p : List Char} {c : Char}
    (P : Char → Bool) (hpat : pat = p ++ [c]) (hc : P c = false)
    (hv : ∀ x ∈ v, P x = true) (h : Occurs pat (u ++ v)) : Occurs pat u := by
  obtain ⟨a, b, hab⟩ := h
  subst hpat
  have hab2 : u ++ v = (a ++ p) ++ (c :: b) := by
    rw [hab]; simp [List.append_assoc]
  have hdropEq : (u ++ v).drop (a ++ p).length = c :: b := by
    rw [hab2]; exact List.drop_left _ _
  by_cases hku : (a ++ p).length < u.length
  · have hdrop2 : u.drop (a ++ p).length ++ v = c :: b := by
      rw [← hdropEq, List.drop_append_eq_append_drop,
        Nat.sub_eq_zero_of_le (le_of_lt hku), List.drop_zero]
    cases hud : u.drop (a ++ p).length with
    | nil =>
      exfalso
      have := List.drop_eq_nil_iff.mp hud
      omega
    | cons c' rest =>
      have hcr : c' :: (rest ++ v) = c :: b := by
        rw [← hdrop2, hud]; simp
      have hc' : c' = c := (List.cons.injEq .. ▸ hcr).1
      have htake : u.take (a ++ p).length = a ++ p := by
        have h1 : (u ++ v).take (a ++ p).length = u.take (a ++ p).length := by
          rw [List.take_append_eq_append_take,
            Nat.sub_eq_zero_of_le (le_of_lt hku), List.take_zero,
            List.append_nil]
        have h2 : (u ++ v).take (a ++ p).length = a ++ p := by
          rw [hab2]; exact List.take_left _ _
        rw [← h1, h2]
      refine ⟨a, rest, ?_⟩
      conv_lhs => rw [← List.take_append_drop (a ++ p).length u]
      rw [htake, hud, hc']
      simp [List.append_assoc]
  · exfalso
    have hk' : u.length ≤ (a ++ p).length := le_of_not_lt hku
    have hvdrop : v.drop ((a ++ p).length - u.length) = c :: b := by
      have h1 := hdropEq
      rw [List.drop_append_eq_append_drop, List.drop_eq_nil_of_le hk'] at h1
      simpa using h1
    have hcv : c ∈ v := by
      apply List.mem_of_mem_drop (n := (a ++ p).length - u.length)
      rw [hvdrop]; simp
    rw [hv c hcv] at hc
    exact absurd hc (by simp)

/-- Claim C1 concerns `runScheduledSweep`'s timer (src viewPolicies.ts lines
548-554): with a 1000 ms interval and iterations that take 2500 ms, at time
1000 ms the first iteration (started at 0) is still executing when the timer
starts the second one — two sweep iterations over the same account set are in
flight at once, because `setInterval` fires unconditionally and the source
keeps no single-flight guard. -/
theorem C1_setInterval_overlaps :
    inFlightAt 1000 (fun _ => 2500) 0 1000 = true ∧
      inFlightAt 1000 (fun _ => 2500) 1 1000 = true := by
  decide

/-- Claim C6: the SIGINT/SIGTERM handler of `runScheduledSweep`
(src viewPolicies.ts lines 557-575) terminates the process while an
iteration is still in flight: starting from a state with an armed timer and
an in-flight iteration, `shutdown` leaves the process dead with the
iteration still unfinished (it does emit the cumulative summary first). -/
theorem C6_shutdown_abandons_in_flight :
    (shutdown ⟨true, true, false, true⟩).processAlive = false ∧
      (shutdown ⟨true, true, false, true⟩).inFlight = true ∧
      (shutdown ⟨true, true, false, true⟩).summaryEmitted = true := by
  decide

/-- Counterexample for claim C8: the `InsufficientGas` outcome, whose error
string is `"Insufficient ETH for gas fees"` (docs/05-fund-sweeping.md line
168), passes the logging filter of `runScheduledSweep` (src viewPolicies.ts
line 512) and therefore IS logged as a warning, contradicting the claim that
it is never logged as a failure. -/
theorem C8_insufficient_gas_is_logged :
    logsWarning (outcomeMessage Outcome.insufficientGas) = true := by
  decide

/-- Amended claim C8: the scheduler's per-wallet warning log suppresses
exactly the outcomes whose error strings mention `"below threshold"` or
`"No USDC"` — so `NoBalance` and `BelowThreshold` are never logged, while
`InsufficientGas` is logged like the failure outcomes; a successful sweep is
never logged as a warning. -/
theorem C8_skip_logging_amended :
    logsWarning (outcomeMessage Outcome.noBalance) = false ∧
      logsWarning (outcomeMessage Outcome.belowThreshold) = false ∧
      logsWarning (outcomeMessage Outcome.insufficientGas) = true ∧
      logsWarning (outcomeMessage Outcome.success) = false := by
  decide

/-- Claim C3: the sweep orchestrator is a total function — every invocation,
whatever the balances and the collaborator responses, returns one of the
eight classified outcomes of spec §7 instead of raising. -/
theorem C3_sweep_total_classified (env : SweepEnv) (thresholdRaw : Nat) :
    (sweepUSDC env thresholdRaw).outcome = Outcome.success ∨
    (sweepUSDC env thresholdRaw).outcome = Outcome.insufficientGas ∨
    (sweepUSDC env thresholdRaw).outcome = Outcome.noBalance ∨
    (sweepUSDC env thresholdRaw).outcome = Outcome.belowThreshold ∨
    (sweepUSDC env thresholdRaw).outcome = Outcome.signingRejected ∨
    (sweepUSDC env thresholdRaw).outcome = Outcome.signingUnavailable ∨
    (sweepUSDC env thresholdRaw).outcome = Outcome.transactionFailed ∨
    (sweepUSDC env thresholdRaw).outcome = Outcome.confirmationUnknown := by
  cases h : (sweepUSDC env thresholdRaw).outcome <;> simp

/-- Witness for C3 at a concrete environment. -/
theorem C3_total_witness :
    (sweepUSDC envBelow 30000).outcome = Outcome.success ∨
    (sweepUSDC envBelow 30000).outcome = Outcome.insufficientGas ∨
    (sweepUSDC envBelow 30000).outcome = Outcome.noBalance ∨
    (sweepUSDC envBelow 30000).outcome = Outcome.belowThreshold ∨
    (sweepUSDC envBelow 30000).outcome = Outcome.signingRejected ∨
    (sweepUSDC envBelow 30000).outcome = Outcome.signingUnavailable ∨
    (sweepUSDC envBelow 30000).outcome = Outcome.transactionFailed ∨
    (sweepUSDC envBelow 30000).outcome = Outcome.confirmationUnknown :=
  C3_sweep_total_classified envBelow 30000

/-- Claim C4: with sufficient gas, the sweep skips exactly when the balance
is zero (`NoBalance`) or positive but below the threshold
(`BelowThreshold`); for a balance at or above the threshold it never skips,
and a skip never carries a transaction hash (no transaction is issued). -/
theorem C4_skip_iff_below_threshold (env : SweepEnv) (thresholdRaw : Nat)
    (hgas : minGasWei ≤ env.ethBalanceWei) :
    (isSkip (sweepUSDC env thresholdRaw).outcome = true ↔
      env.usdcBalanceRaw = 0 ∨
        (0 < env.usdcBalanceRaw ∧ env.usdcBalanceRaw < thresholdRaw)) ∧
    (isSkip (sweepUSDC env thresholdRaw).outcome = true →
      (sweepUSDC env thresholdRaw).txHash = none) := by
  have hnot : ¬ env.ethBalanceWei < minGasWei := by omega
  unfold sweepUSDC
  rw [if_neg hnot]
  by_cases h0 : env.usdcBalanceRaw = 0
  · simp [h0, isSkip]
  · rw [if_neg h0]
    by_cases hlt : env.usdcBalanceRaw < thresholdRaw
    · rw [if_pos hlt]
      constructor
      · simp [isSkip]; omega
      · intro _; rfl
    · rw [if_neg hlt]
      cases env.signing with
      | rejected => constructor
                    · simp [isSkip]; omega
                    · intro hk; simp [isSkip] at hk
      | unavailable => constructor
                       · simp [isSkip]; omega
                       · intro hk; simp [isSkip] at hk
      | broadcast tx =>
        cases env.confirmation <;>
          exact ⟨by simp [isSkip]; omega, fun hk => by simp [isSkip] at hk⟩

/-- Witness for C4: with the gas reserve met and a 20000-unit balance below a
30000-unit threshold, the outcome is a skip. -/
theorem C4_skip_witness :
    minGasWei ≤ envBelow.ethBalanceWei ∧
      (isSkip (sweepUSDC envBelow 30000).outcome = true ↔
        envBelow.usdcBalanceRaw = 0 ∨
          (0 < envBelow.usdcBalanceRaw ∧ envBelow.usdcBalanceRaw < 30000)) ∧
      (isSkip (sweepUSDC envBelow 30000).outcome = true →
        (sweepUSDC envBelow 30000).txHash = none) :=
  ⟨by decide, (C4_skip_iff_below_threshold envBelow 30000 (by decide)).1,
    (C4_skip_iff_below_threshold envBelow 30000 (by decide)).2⟩

/-- Claim C5: a sweep that succeeds transfers exactly the entire pre-sweep
token balance, and re-invoking the orchestrator on the account afterwards —
its token balance reduced by the full swept amount, its gas still at the
reserve — yields `NoBalance`. -/
theorem C5_full_balance_idempotent (env envAgain : SweepEnv) (thresholdRaw : Nat)
    (hs : (sweepUSDC env thresholdRaw).outcome = Outcome.success)
    (hbal : envAgain.usdcBalanceRaw + env.usdcBalanceRaw = env.usdcBalanceRaw)
    (hgas : minGasWei ≤ envAgain.ethBalanceWei) :
    (sweepUSDC env thresholdRaw).amount = some env.usdcBalanceRaw ∧
      (sweepUSDC envAgain thresholdRaw).outcome = Outcome.noBalance := by
  have h0 : envAgain.usdcBalanceRaw = 0 := by omega
  constructor
  · unfold sweepUSDC at hs ⊢
    split_ifs at hs ⊢ <;> try simp_all
    revert hs
    cases env.signing with
    | rejected => simp
    | unavailable => simp
    | broadcast tx => cases env.confirmation <;> simp
  · unfold sweepUSDC
    rw [if_neg (by omega), if_pos h0]

/-- Witness for C5: a concrete successful sweep of a 5000000-unit balance
followed by a re-invocation on the emptied account. -/
theorem C5_idempotent_witness :
    (sweepUSDC envSuccess 30000).outcome = Outcome.success ∧
      envAfter.usdcBalanceRaw + envSuccess.usdcBalanceRaw =
        envSuccess.usdcBalanceRaw ∧
      minGasWei ≤ envAfter.ethBalanceWei ∧
      ((sweepUSDC envSuccess 30000).amount = some envSuccess.usdcBalanceRaw ∧
        (sweepUSDC envAfter 30000).outcome = Outcome.noBalance) :=
  ⟨by decide, by decide, by decide,
    C5_full_balance_idempotent envSuccess envAfter 30000 (by decide) (by decide)
      (by decide)⟩

/-- Claim C7: one batch run of `runSweepFunds` produces exactly one result
record per wallet of every merchant, in the sequential merchant/wallet
order — independently of any per-wallet failure or thrown exception, so a
failure on one wallet never aborts the remainder of the batch. -/
theorem C7_batch_attempts_each_wallet_once
    (call : Merchant → Wallet → Except String SweepCallResult)
    (merchants : List Merchant) :
    runSweepFunds call merchants =
      merchants.flatMap (fun m => m.wallets.map (processWallet call m)) ∧
    (runSweepFunds call merchants).length =
      (merchants.map (fun m => m.wallets.length)).sum := by
  have key : ∀ (ms : List Merchant) (acc : List ResultRecord),
      ms.foldl
        (fun acc m =>
          if m.wallets.length = 0 then acc
          else acc ++ m.wallets.map (processWallet call m)) acc
        = acc ++ ms.flatMap (fun m => m.wallets.map (processWallet call m)) := by
    intro ms
    induction ms with
    | nil => intro acc; simp
    | cons m ms ih =>
      intro acc
      rw [List.foldl_cons, List.flatMap_cons]
      by_cases h : m.wallets.length = 0
      · have hw : m.wallets = [] := List.length_eq_zero.mp h
        rw [if_pos h, ih, hw]
        simp
      · rw [if_neg h, ih]
        simp [List.append_assoc]
  have hmain : runSweepFunds call merchants =
      merchants.flatMap (fun m => m.wallets.map (processWallet call m)) := by
    unfold runSweepFunds
    rw [key merchants []]
    simp
  refine ⟨hmain, ?_⟩
  rw [hmain, List.length_flatMap]
  simp [Function.comp_def]

/-- Witness for C7 at a concrete merchant set and a sweep call that always
throws. -/
theorem C7_batch_witness :
    runSweepFunds callWitness merchantsWitness =
      merchantsWitness.flatMap
        (fun m => m.wallets.map (processWallet callWitness m)) ∧
    (runSweepFunds callWitness merchantsWitness).length =
      (merchantsWitness.map (fun m => m.wallets.length)).sum :=
  C7_batch_attempts_each_wallet_once callWitness merchantsWitness

/-- Claim C10: `listMerchants` succeeds exactly when the top-level
sub-organization id listing succeeds — per-sub-organization failures
(wallets, name, accounts, policies) are absorbed by the inner handlers and
never make `listMerchants` throw. -/
theorem C10_listMerchants_isolates_failures (env : MerchantsEnv) :
    (listMerchants env).isOk = env.getSubOrgIds.isOk := by
  unfold listMerchants
  cases env.getSubOrgIds <;> rfl

/-- Witness for C10 at a concrete environment whose per-sub-organization
calls all fail while the id listing succeeds. -/
theorem C10_isolation_witness :
    (listMerchants envMerchants).isOk = envMerchants.getSubOrgIds.isOk :=
  C10_listMerchants_isolates_failures envMerchants

/-! ### Codec lemmas -/

theorem trimLeft_of_head {m : List Char}
    (hm : ∀ c, m.head? = some c → isSpaceChar c = false) :
    trimLeftChars m = m := by
  cases m with
  | nil => rfl
  | cons c cs =>
    have := hm c rfl
    simp [trimLeftChars, List.dropWhile_cons, this]

theorem trim_eq_self {l : List Char}
    (h1 : ∀ c, l.head? = some c → isSpaceChar c = false)
    (h2 : ∀ c, l.getLast? = some c → isSpaceChar c = false) :
    trimChars l = l := by
  unfold trimChars trimRightChars
  have hin : trimLeftChars l.reverse = l.reverse :=
    trimLeft_of_head (fun c hc => h2 c (by rwa [List.head?_reverse] at hc))
  rw [hin, List.reverse_reverse, trimLeft_of_head h1]

theorem hexLike_hexChar : ∀ n : Fin 16, hexLikeChar (hexChar n) = true := by
  decide

theorem hexChar_ne_quote : ∀ n : Fin 16, (hexChar n != quoteChar) = true := by
  decide

theorem hexChar_ne_amp : ∀ n : Fin 16, hexChar n ≠ '&' := by
  decide

theorem amp_notin_map_hexChar (a : List (Fin 16)) : '&' ∉ a.map hexChar := by
  intro h
  rcases List.mem_map.mp h with ⟨n, -, hn⟩
  exact hexChar_ne_amp n hn

theorem amp_notin_clauseTarget (t : List (Fin 16)) : '&' ∉ clauseTarget t := by
  intro h
  rcases List.mem_append.mp h with h1 | h1
  · rcases List.mem_append.mp h1 with h2 | h2
    · exact absurd h2 (by decide)
    · rcases List.mem_cons.mp h2 with h3 | h3
      · exact absurd h3 (by decide)
      · rcases List.mem_cons.mp h3 with h4 | h4
        · exact absurd h4 (by decide)
        · exact amp_notin_map_hexChar t h4
  · exact absurd h1 (by decide)

theorem amp_notin_clauseSelector : '&' ∉ clauseSelector := by
  decide

theorem amp_notin_clauseDestination (d : List (Fin 16)) :
    '&' ∉ clauseDestination d := by
  intro h
  rcases List.mem_append.mp h with h1 | h1
  · rcases List.mem_append.mp h1 with h2 | h2
    · exact absurd h2 (by decide)
    · rcases List.mem_append.mp h2 with h3 | h3
      · exact absurd (List.eq_of_mem_replicate h3) (by decide)
      · exact amp_notin_map_hexChar d h3
  · exact absurd h1 (by decide)

theorem sep_not_leading {c : Char} {u' rest : List Char} (h : '&' ∉ c :: u') :
    sepChars.isPrefixOf (c :: (u' ++ (sepChars ++ rest))) = false := by
  cases u' with
  | nil =>
    simp only [List.nil_append, sepChars, List.cons_append]
    simp [List.isPrefixOf]
  | cons d u'' =>
    have hd : d ≠ '&' := fun he => h (by simp [he])
    have hdne : ('&' == d) = false := beq_eq_false_iff_ne.mpr (Ne.symm hd)
    simp only [List.cons_append, sepChars, List.isPrefixOf, hdne,
      Bool.and_false, Bool.false_and]

theorem splitFirst_append_sep {u : List Char} (v : List Char) (h : '&' ∉ u) :
    splitFirst sepChars (u ++ sepChars ++ v) = some (u, v) := by
  induction u with
  | nil =>
    show splitFirst sepChars (sepChars ++ v) = some ([], v)
    have hcons : sepChars ++ v = ' ' :: ('&' :: '&' :: ' ' :: v) := by
      simp [sepChars]
    rw [hcons, splitFirst, if_pos (by rw [← hcons]; exact isPrefixOf_append_self _ _)]
    rw [← hcons]
    have : (sepChars ++ v).drop sepChars.length = v := List.drop_left _ _
    simp [this]
  | cons c u' ih =>
    have hmem : '&' ∉ u' := fun hx => h (List.mem_cons_of_mem c hx)
    have hcons : (c :: u') ++ sepChars ++ v = c :: (u' ++ (sepChars ++ v)) := by
      simp
    rw [hcons, splitFirst]
    rw [if_neg (by rw [sep_not_leading h]; exact Bool.false_ne_true)]
    have := ih hmem
    rw [List.append_assoc] at this
    rw [this]

theorem splitFirst_sep_none {u : List Char} (h : '&' ∉ u) :
    splitFirst sepChars u = none := by
  induction u with
  | nil => rfl
  | cons c u' ih =>
    have hmem : '&' ∉ u' := fun hx => h (List.mem_cons_of_mem c hx)
    rw [splitFirst]
    rw [if_neg ?_, ih hmem]
    intro hpre
    exact h (mem_of_isPrefixOf hpre '&' (by simp [sepChars]))

theorem splitCond_append {u : List Char} (v : List Char) (h : '&' ∉ u) :
    splitCond (u ++ sepChars ++ v) = u :: splitCond v := by
  rw [splitCond, splitFirst_append_sep v h]

theorem splitCond_single {u : List Char} (h : '&' ∉ u) : splitCond u = [u] := by
  rw [splitCond, splitFirst_sep_none h]

theorem takeWhile_append_of_all {p : Char → Bool} {xs : List Char}
    (ys : List Char) (h : ∀ x ∈ xs, p x = true) :
    (xs ++ ys).takeWhile p = xs ++ ys.takeWhile p := by
  induction xs with
  | nil => simp
  | cons x xs ih =>
    have hx := h x (List.mem_cons_self x xs)
    simp only [List.cons_append, List.takeWhile_cons, hx, if_true]
    rw [ih (fun y hy => h y (List.mem_cons_of_mem x hy))]

theorem captureAt_append {lit body : List Char}
    (hbody : ∀ x ∈ body, (x != quoteChar) = true) (hne : body ≠ []) :
    captureAt lit (lit ++ (body ++ [quoteChar])) = some body := by
  unfold captureAt
  rw [if_pos (isPrefixOf_append_self _ _)]
  have hdrop : (lit ++ (body ++ [quoteChar])).drop lit.length =
      body ++ [quoteChar] := List.drop_left _ _
  have hq : ([quoteChar].takeWhile (fun c => c != quoteChar)) = [] := by
    simp [List.takeWhile_cons]
  have htw : ((lit ++ (body ++ [quoteChar])).drop lit.length).takeWhile
      (fun c => c != quoteChar) = body := by
    rw [hdrop, takeWhile_append_of_all _ hbody, hq, List.append_nil]
  rw [htw, hdrop]
  have hlen : ¬ body.length = (body ++ [quoteChar]).length := by
    simp
  have hempty : body.isEmpty = false := by
    cases body with
    | nil => exact absurd rfl hne
    | cons a l => rfl
  simp [hempty, hlen]

theorem regexCapture_of_captureAt {lit l r : List Char} (hne : l ≠ [])
    (h : captureAt lit l = some r) : regexCapture lit l = some r := by
  cases l with
  | nil => exact absurd rfl hne
  | cons c cs => rw [regexCapture, h]

theorem contains_of_leading (pat rest : List Char) :
    listContains pat (pat ++ rest) = true :=
  (listContains_iff_occurs _ _).mpr ⟨[], rest, by simp⟩

theorem not_contains_of_tail_class {pat u : List Char} (p body : List Char)
    {c : Char} (hpat : pat = p ++ [c]) (hc : hexLikeChar c = false)
    (hbody : ∀ x ∈ body ++ [quoteChar], hexLikeChar x = true)
    (hu : listContains pat u = false) :
    listContains pat (u ++ (body ++ [quoteChar])) = false := by
  rw [Bool.eq_false_iff]
  intro hcontra
  have hocc := (listContains_iff_occurs _ _).mp hcontra
  have := occurs_last_in_left hexLikeChar hpat hc hbody hocc
  have := (listContains_iff_occurs _ _).mpr this
  rw [hu] at this
  exact Bool.false_ne_true this

theorem hexLike_addr_body (t : List (Fin 16)) :
    ∀ x ∈ addrChars t ++ [quoteChar], hexLikeChar x = true := by
  intro x hx
  rcases List.mem_append.mp hx with h1 | h1
  · rcases List.mem_cons.mp h1 with h2 | h2
    · rw [h2]; decide
    · rcases List.mem_cons.mp h2 with h3 | h3
      · rw [h3]; decide
      · rcases List.mem_map.mp h3 with ⟨n, -, hn⟩
        exact hn ▸ hexLike_hexChar n
  · have : x = quoteChar := by simpa using h1
    rw [this]; decide

theorem hexLike_padded_body (d : List (Fin 16)) :
    ∀ x ∈ paddedChars d ++ [quoteChar], hexLikeChar x = true := by
  intro x hx
  rcases List.mem_append.mp hx with h1 | h1
  · rcases List.mem_append.mp h1 with h2 | h2
    · rw [List.eq_of_mem_replicate h2]; decide
    · rcases List.mem_map.mp h2 with ⟨n, -, hn⟩
      exact hn ▸ hexLike_hexChar n
  · have : x = quoteChar := by simpa using h1
    rw [this]; decide

theorem addr_body_ne_quote (t : List (Fin 16)) :
    ∀ x ∈ addrChars t, (x != quoteChar) = true := by
  intro x hx
  rcases List.mem_cons.mp hx with h2 | h2
  · rw [h2]; decide
  · rcases List.mem_cons.mp h2 with h3 | h3
    · rw [h3]; decide
    · rcases List.mem_map.mp h3 with ⟨n, -, hn⟩
      exact hn ▸ hexChar_ne_quote n

theorem padded_body_ne_quote (d : List (Fin 16)) :
    ∀ x ∈ paddedChars d, (x != quoteChar) = true := by
  intro x hx
  rcases List.mem_append.mp hx with h2 | h2
  · rw [List.eq_of_mem_replicate h2]; decide
  · rcases List.mem_map.mp h2 with ⟨n, -, hn⟩
    exact hn ▸ hexChar_ne_quote n

theorem decodeClause_clauseTarget (t : List (Fin 16)) :
    decodeClause (clauseTarget t) = ClauseDecode.target (addrChars t) := by
  have hshape : clauseTarget t = litTarget ++ (addrChars t ++ [quoteChar]) := by
    simp [clauseTarget, List.append_assoc]
  have hshape2 : clauseTarget t = patTarget ++ ([' ', quoteChar] ++ (addrChars t ++ [quoteChar])) := by
    rw [hshape, litTarget]; simp [List.append_assoc]
  have hcontains : listContains patTarget (clauseTarget t) = true := by
    rw [hshape2]; exact contains_of_leading _ _
  have hne : clauseTarget t ≠ [] := by
    rw [hshape2]; simp [patTarget]
  have hcap : regexCapture litTarget (clauseTarget t) = some (addrChars t) := by
    apply regexCapture_of_captureAt hne
    rw [hshape]
    exact captureAt_append (addr_body_ne_quote t) (by simp [addrChars])
  unfold decodeClause
  rw [hcontains, if_pos rfl, hcap]

theorem decodeClause_clauseSelector :
    decodeClause clauseSelector = ClauseDecode.selector selectorChars := by
  decide

theorem decodeClause_clauseDestination (d : List (Fin 16)) :
    decodeClause (clauseDestination d) =
      ClauseDecode.destination (paddedChars d)
        ('0' :: 'x' :: sliceLast 40 (paddedChars d)) := by
  have hshape : clauseDestination d =
      litDestination ++ (paddedChars d ++ [quoteChar]) := by
    simp [clauseDestination, List.append_assoc]
  have hshape2 : clauseDestination d =
      patDestination ++ ([' ', quoteChar] ++ (paddedChars d ++ [quoteChar])) := by
    rw [hshape, litDestination]; simp [List.append_assoc]
  have hc1 : listContains patTarget (clauseDestination d) = false := by
    rw [hshape]
    exact not_contains_of_tail_class
      ['e', 't', 'h', '.', 't', 'x', '.', 't', 'o', ' ', '=']
      (paddedChars d) rfl (by decide) (hexLike_padded_body d) (by decide)
  have hc2 : listContains patSelector (clauseDestination d) = false := by
    rw [hshape]
    exact not_contains_of_tail_class
      ['e', 't', 'h', '.', 't', 'x', '.', 'd', 'a', 't', 'a', '[', '2', '.',
        '.', '1', '0', ']', ' ', '=']
      (paddedChars d) rfl (by decide) (hexLike_padded_body d) (by decide)
  have hc3 : listContains patDestination (clauseDestination d) = true := by
    rw [hshape2]; exact contains_of_leading _ _
  have hne : clauseDestination d ≠ [] := by
    rw [hshape2]; simp [patDestination]
  have hcap : regexCapture litDestination (clauseDestination d) =
      some (paddedChars d) := by
    apply regexCapture_of_captureAt hne
    rw [hshape]
    exact captureAt_append (padded_body_ne_quote d) (by simp [paddedChars])
  unfold decodeClause
  rw [hc1, hc2, hc3]
  simp [hcap]

theorem trim_clauseTarget (t : List (Fin 16)) :
    trimChars (clauseTarget t) = clauseTarget t := by
  apply trim_eq_self
  · intro c hc
    have : clauseTarget t = 'e' :: (['t', 'h', '.', 't', 'x', '.', 't', 'o',
        ' ', '=', '=', ' ', quoteChar] ++ addrChars t ++ [quoteChar]) := by
      simp [clauseTarget, litTarget, patTarget]
    rw [this] at hc
    simp at hc
    rw [← hc]; decide
  · intro c hc
    rw [show clauseTarget t = (litTarget ++ addrChars t) ++ [quoteChar] from
      rfl, List.getLast?_concat] at hc
    have : c = quoteChar := by simpa using hc.symm
    rw [this]; decide

theorem trim_clauseSelector : trimChars clauseSelector = clauseSelector := by
  decide

theorem trim_clauseDestination (d : List (Fin 16)) :
    trimChars (clauseDestination d) = clauseDestination d := by
  apply trim_eq_self
  · intro c hc
    have : clauseDestination d = 'e' :: (['t', 'h', '.', 't', 'x', '.', 'd',
        'a', 't', 'a', '[', '1', '0', '.', '.', '7', '4', ']', ' ', '=', '=',
        ' ', quoteChar] ++ paddedChars d ++ [quoteChar]) := by
      simp [clauseDestination, litDestination, patDestination]
    rw [this] at hc
    simp at hc
    rw [← hc]; decide
  · intro c hc
    rw [show clauseDestination d = (litDestination ++ paddedChars d) ++
      [quoteChar] from rfl, List.getLast?_concat] at hc
    have : c = quoteChar := by simpa using hc.symm
    rw [this]; decide

theorem sliceLast_padded {d : List (Fin 16)} (hd : d.length = 40) :
    sliceLast 40 (paddedChars d) = d.map hexChar := by
  unfold sliceLast paddedChars
  have hlen : (List.replicate 24 '0' ++ d.map hexChar).length - 40 = 24 := by
    simp [hd]
  have h24 : (List.replicate (α := Char) 24 '0').length = 24 := by simp
  rw [hlen]
  nth_rewrite 1 [← h24]
  exact List.drop_left _ _

theorem parseHexList_map (a : List (Fin 16)) :
    parseHexList (a.map hexChar) = some a := by
  induction a with
  | nil => rfl
  | cons n ns ih =>
    have hn : parseHexChar (hexChar n) = some n := by revert n; decide
    simp only [List.map_cons, parseHexList, hn, ih]

theorem parseAddr_addrChars (a : List (Fin 16)) :
    parseAddr (addrChars a) = some a := by
  unfold parseAddr addrChars
  exact parseHexList_map a

/-- Claim C2: for all valid 20-byte addresses `t` and `d`, decompiling the
compiled restriction predicate recovers exactly the three documented
clauses — the target address `t`, the fixed ERC-20 transfer selector, and
the destination `d` with its 12-byte left padding stripped; the rendered
addresses parse back to the exact address values. -/
theorem C2_compile_decompile_roundtrip (t d : List (Fin 16))
    (ht : t.length = 40) (hd : d.length = 40) :
    decompile (compile t d) =
      [ClauseDecode.target (addrChars t), ClauseDecode.selector selectorChars,
        ClauseDecode.destination (paddedChars d) (addrChars d)] ∧
    parseAddr (addrChars t) = some t ∧ parseAddr (addrChars d) = some d := by
  refine ⟨?_, parseAddr_addrChars t, parseAddr_addrChars d⟩
  have hsplitarg : compile t d =
      clauseTarget t ++ sepChars ++
        (clauseSelector ++ sepChars ++ clauseDestination d) := by
    unfold compile
    simp [List.append_assoc]
  have hsplit : splitCond (compile t d) =
      [clauseTarget t, clauseSelector, clauseDestination d] := by
    rw [hsplitarg, splitCond_append _ (amp_notin_clauseTarget t),
      splitCond_append _ amp_notin_clauseSelector,
      splitCond_single (amp_notin_clauseDestination d)]
  have hnonempty : (compile t d).isEmpty = false := by
    rw [hsplitarg]
    cases hcl : clauseTarget t ++ sepChars ++
        (clauseSelector ++ sepChars ++ clauseDestination d) with
    | nil =>
      exfalso
      rcases List.append_eq_nil.mp hcl with ⟨h1, -⟩
      rcases List.append_eq_nil.mp h1 with ⟨-, h2⟩
      simp [sepChars] at h2
    | cons a l => rfl
  unfold decompile
  rw [hnonempty]
  simp only [Bool.false_eq_true, if_false, hsplit, List.map_cons,
    List.map_nil]
  rw [trim_clauseTarget, trim_clauseSelector, trim_clauseDestination,
    decodeClause_clauseTarget, decodeClause_clauseSelector,
    decodeClause_clauseDestination, sliceLast_padded hd]
  rfl

/-- Witness for C2 at the concrete addresses `0xbb…b` and `0x22…2`. -/
theorem C2_roundtrip_witness :
    tWitness.length = 40 ∧ dWitness.length = 40 ∧
      (decompile (compile tWitness dWitness) =
        [ClauseDecode.target (addrChars tWitness),
          ClauseDecode.selector selectorChars,
          ClauseDecode.destination (paddedChars dWitness)
            (addrChars dWitness)] ∧
        parseAddr (addrChars tWitness) = some tWitness ∧
        parseAddr (addrChars dWitness) = some dWitness) :=
  ⟨by decide, by decide,
    C2_compile_decompile_roundtrip tWitness dWitness (by decide) (by decide)⟩

/-- Claim C9: the decoder never fails as a whole — every clause of every
condition string contributes exactly one decode entry, and a clause carrying
none of the three recognized markers is kept verbatim as an `unrecognized`
entry while the other clauses are still decoded independently. -/
theorem C9_decompile_graceful (cond : List Char) (hne : cond ≠ []) :
    (decompile cond).length = (splitCond cond).length ∧
      ∀ (i : Nat) (q : List Char), (splitCond cond)[i]? = some q →
        noMarkers (trimChars q) = true →
        (decompile cond)[i]? =
          some (ClauseDecode.unrecognized (trimChars q)) := by
  have hempty : cond.isEmpty = false := by
    cases cond with
    | nil => exact absurd rfl hne
    | cons a l => rfl
  have hdec : decompile cond =
      (splitCond cond).map (fun p => decodeClause (trimChars p)) := by
    unfold decompile
    rw [hempty]
    simp
  constructor
  · rw [hdec, List.length_map]
  · intro i q hq hmk
    rw [hdec, List.getElem?_map, hq]
    have h1 : listContains patTarget (trimChars q) = false := by
      revert hmk
      cases hb : listContains patTarget (trimChars q) <;> simp [noMarkers, hb]
    have h2 : listContains patSelector (trimChars q) = false := by
      revert hmk
      cases hb : listContains patSelector (trimChars q) <;> simp [noMarkers, hb]
    have h3 : listContains patDestination (trimChars q) = false := by
      revert hmk
      cases hb : listContains patDestination (trimChars q) <;>
        simp [noMarkers, hb]
    simp [decodeClause, h1, h2, h3]

/-- Witness for C9: a junk clause followed by a genuine selector clause —
the junk clause decodes verbatim, the whole decode does not fail. -/
theorem C9_graceful_witness :
    condWitness ≠ [] ∧
      ((decompile condWitness).length = (splitCond condWitness).length ∧
        ∀ (i : Nat) (q : List Char), (splitCond condWitness)[i]? = some q →
          noMarkers (trimChars q) = true →
          (decompile condWitness)[i]? =
            some (ClauseDecode.unrecognized (trimChars q))) :=
  ⟨by decide, C9_decompile_graceful condWitness (by decide)⟩

end Payflow
